import Mathlib

/-!
Verification of the buffer lifecycle and sub-allocation subsystem of the
filament Metal backend (file `filament/backend/src/metal/MetalBuffer.h`).

The development shallowly embeds the code in Lean:

* `align` embeds the `align` template function, with 64-bit unsigned
  (`size_t` / `NSUInteger`) wraparound arithmetic made explicit.
* `computeSlotSize`, `RingState`, `createNewAllocation`, `fireCallback`,
  `getCurrentAllocation` and `canAccomodateLayout` embed `MetalRingBuffer`,
  with the platform alignment constant as an explicit parameter, native
  buffer handles modelled as natural numbers drawn from a fresh-handle
  counter, and the completion handlers registered on command buffers
  modelled by a count of pending callbacks.
* `TrackerState`, `applyEvent`, `constructTracked` embed the static
  per-category alive-buffer counters of `TrackedMetalBuffer`.
-/

namespace MetalBufferModel

/-- Modulus of 64-bit unsigned machine words, the width of both
`size_t` and `NSUInteger` on the platforms this backend targets. -/
def WORD : Nat := 2 ^ 64

/-- Embedding of the `align` template function:
`return (TYPE)((p + alignment - 1) & ~(alignment - 1));`
instantiated at a 64-bit unsigned `TYPE`.  The sum wraps modulo `2 ^ 64`
and the bitwise complement of `alignment - 1` is taken within 64 bits,
written as xor with the all-ones word.  The source asserts that
`alignment` is a nonzero power of two. -/
def align (p alignment : Nat) : Nat :=
  ((p + alignment - 1) % WORD) &&& ((WORD - 1) ^^^ (alignment - 1))

/-- The 64-bit complement of the low-bit mask `2 ^ k - 1` is the mask of
bits `k` through `63`. -/
lemma xor_allones_low_mask (k : Nat) (hk : k ≤ 64) :
    (WORD - 1) ^^^ (2 ^ k - 1) = WORD - 2 ^ k := by
  have hrepr : WORD - 2 ^ k = (2 ^ (64 - k) - 1) <<< k := by
    rw [Nat.shiftLeft_eq, Nat.sub_mul, one_mul, ← pow_add,
      Nat.sub_add_cancel hk]
    rfl
  have hall : WORD - 1 = 2 ^ 64 - 1 := rfl
  rw [hrepr, hall]
  apply Nat.eq_of_testBit_eq
  intro i
  rw [Nat.testBit_xor, Nat.testBit_shiftLeft, Nat.testBit_two_pow_sub_one,
    Nat.testBit_two_pow_sub_one, Nat.testBit_two_pow_sub_one]
  by_cases h1 : i < k
  · have h2 : i < 64 := lt_of_lt_of_le h1 hk
    simp [h1, h2, Nat.not_le.mpr h1]
  · have hge : i ≥ k := Nat.le_of_not_lt h1
    by_cases h2 : i < 64
    · have h3 : i - k < 64 - k := by omega
      simp [h1, h2, hge, h3]
    · have h3 : ¬(i - k < 64 - k) := by omega
      simp [h1, h2, hge, h3]

/-- Masking a 64-bit value with the high mask `WORD - 2 ^ k` clears its
low `k` bits, leaving `2 ^ k * (x / 2 ^ k)`. -/
lemma land_high_mask (x k : Nat) (hk : k ≤ 64) (hx : x < WORD) :
    x &&& (WORD - 2 ^ k) = 2 ^ k * (x / 2 ^ k) := by
  have hrepr : WORD - 2 ^ k = (2 ^ (64 - k) - 1) <<< k := by
    rw [Nat.shiftLeft_eq, Nat.sub_mul, one_mul, ← pow_add,
      Nat.sub_add_cancel hk]
    rfl
  have hdiv : 2 ^ k * (x / 2 ^ k) = (x >>> k) <<< k := by
    rw [Nat.shiftRight_eq_div_pow, Nat.shiftLeft_eq, Nat.mul_comm]
  rw [hrepr, hdiv]
  apply Nat.eq_of_testBit_eq
  intro i
  rw [Nat.testBit_land, Nat.testBit_shiftLeft, Nat.testBit_shiftLeft,
    Nat.testBit_two_pow_sub_one, Nat.testBit_shiftRight]
  by_cases h1 : i < k
  · simp [Nat.not_le.mpr h1]
  · have hge : k ≤ i := Nat.le_of_not_lt h1
    have hki : k + (i - k) = i := by omega
    rw [hki]
    by_cases h2 : i < 64
    · have : i - k < 64 - k := by omega
      simp [hge, this]
    · have hxi : x.testBit i = false := by
        apply Nat.testBit_lt_two_pow
        calc x < WORD := hx
        _ = 2 ^ 64 := rfl
        _ ≤ 2 ^ i := Nat.pow_le_pow_right (by norm_num) (by omega)
      simp [hxi]

/-- On power-of-two alignments without overflow, `align` computes the
ceiling-style rounded value `2 ^ k * ((p + 2 ^ k - 1) / 2 ^ k)`. -/
lemma align_pow2 (p k : Nat) (hk : k ≤ 64) (hov : p + 2 ^ k - 1 < WORD) :
    align p (2 ^ k) = 2 ^ k * ((p + 2 ^ k - 1) / 2 ^ k) := by
  unfold align
  rw [Nat.mod_eq_of_lt hov, xor_allones_low_mask k hk, land_high_mask _ k hk hov]

/-- The rounded value is at least `p`. -/
lemma ceil_mul_ge (p a : Nat) (ha : 0 < a) : p ≤ a * ((p + a - 1) / a) := by
  have hmod := Nat.div_add_mod (p + a - 1) a
  have hlt : (p + a - 1) % a < a := Nat.mod_lt _ ha
  omega

/-- The rounded value is below `p + a`. -/
lemma ceil_mul_lt (p a : Nat) (ha : 0 < a) : a * ((p + a - 1) / a) < p + a := by
  have hmod := Nat.div_add_mod (p + a - 1) a
  omega

/-- The rounded value is the least multiple of `a` that is at least `p`. -/
lemma ceil_mul_least (p a m : Nat) (ha : 0 < a) (h : p ≤ a * m) :
    a * ((p + a - 1) / a) ≤ a * m := by
  apply Nat.mul_le_mul_left
  have : (p + a - 1) ≤ a * m + (a - 1) := by omega
  calc (p + a - 1) / a ≤ (a * m + (a - 1)) / a := Nat.div_le_div_right this
  _ = m + (a - 1) / a := Nat.mul_add_div ha m (a - 1)
  _ = m := by rw [Nat.div_eq_of_lt (by omega)]; ring

/-- A multiple of `2 ^ k` below `WORD` leaves room for `2 ^ k - 1` more
without overflowing the word. -/
lemma mul_pow_no_overflow (q k : Nat) (hk : k ≤ 64) (h : 2 ^ k * q < WORD) :
    2 ^ k * q + 2 ^ k - 1 < WORD := by
  have hW : WORD = 2 ^ k * 2 ^ (64 - k) := by
    show 2 ^ 64 = 2 ^ k * 2 ^ (64 - k)
    rw [← pow_add]
    congr 1
    omega
  have hq : q < 2 ^ (64 - k) := by
    by_contra hq
    push_neg at hq
    exact absurd (hW ▸ h) (not_lt.mpr (Nat.mul_le_mul_left _ hq))
  have : 2 ^ k * q + 2 ^ k ≤ WORD := by
    rw [hW, ← Nat.mul_succ]
    exact Nat.mul_le_mul_left _ hq
  have hpos : 0 < 2 ^ k := Nat.pos_pow_of_pos k (by norm_num)
  omega

/-- C10: the claim as stated is false: at `p = 2 ^ 64 - 1` and `a = 2`, the
64-bit computation of `align` wraps around and returns `0`, which is below
`p`, so `align p a` is not the least multiple of `a` at or above `p`. -/
theorem C10_counterexample :
    align (2 ^ 64 - 1) 2 = 0 ∧ ¬(2 ^ 64 - 1 ≤ align (2 ^ 64 - 1) 2) := by
  constructor
  · decide
  · decide

/-- Full characterization of `align` on power-of-two alignments without
overflow: it returns the least multiple of the alignment at or above `p`,
and is idempotent. -/
lemma align_least_multiple (p a k : Nat) (hak : a = 2 ^ k) (hk : k ≤ 64)
    (hov : p + a - 1 < 2 ^ 64) :
    p ≤ align p a ∧ align p a < p + a ∧ align p a % a = 0 ∧
      align (align p a) a = align p a ∧ ∀ m, p ≤ a * m → align p a ≤ a * m := by
  subst hak
  have hk64 : k ≤ 64 := hk
  have ha : 0 < 2 ^ k := Nat.pos_pow_of_pos k (by norm_num)
  have hovW : p + 2 ^ k - 1 < WORD := hov
  have heq : align p (2 ^ k) = 2 ^ k * ((p + 2 ^ k - 1) / 2 ^ k) :=
    align_pow2 p k hk64 hovW
  refine ⟨?_, ?_, ?_, ?_, ?_⟩
  · rw [heq]; exact ceil_mul_ge p (2 ^ k) ha
  · rw [heq]; exact ceil_mul_lt p (2 ^ k) ha
  · rw [heq]; exact Nat.mul_mod_right _ _
  · have hle := ceil_mul_lt p (2 ^ k) ha
    have hlt : 2 ^ k * ((p + 2 ^ k - 1) / 2 ^ k) < WORD := by
      have hW : WORD = 2 ^ 64 := rfl
      omega
    have hov2 : 2 ^ k * ((p + 2 ^ k - 1) / 2 ^ k) + 2 ^ k - 1 < WORD :=
      mul_pow_no_overflow _ k hk64 hlt
    have hdivq : ∀ q : Nat, (2 ^ k * q + 2 ^ k - 1) / 2 ^ k = q := by
      intro q
      rw [Nat.add_sub_assoc ha, Nat.mul_add_div ha,
        Nat.div_eq_of_lt (Nat.sub_lt ha Nat.one_pos), Nat.add_zero]
    rw [heq, align_pow2 _ k hk64 hov2, hdivq]
  · intro m hm
    rw [heq]
    exact ceil_mul_least p (2 ^ k) m ha hm

/-- C10 (amended: restricted to inputs where `p + a - 1` does not overflow
the 64-bit word): for every `p` and every alignment `a = 2 ^ k` that is a
nonzero power of two representable in `size_t`, with `p + a - 1 < 2 ^ 64`,
`align p a` is the least multiple of `a` at or above `p`: it is at least
`p`, below `p + a`, divisible by `a`, idempotent, and below every multiple
of `a` that is at least `p`. -/
theorem C10_align_least_multiple (p a k : Nat) (hak : a = 2 ^ k) (hk : k < 64)
    (hov : p + a - 1 < 2 ^ 64) :
    p ≤ align p a ∧ align p a < p + a ∧ align p a % a = 0 ∧
      align (align p a) a = align p a ∧ ∀ m, p ≤ a * m → align p a ≤ a * m :=
  align_least_multiple p a k hak (Nat.le_of_lt hk) hov

/-- C10 witness: the amended theorem instantiated at `p = 5`, `a = 4`. -/
theorem C10_align_least_multiple_witness :
    5 ≤ align 5 4 ∧ align 5 4 < 5 + 4 ∧ align 5 4 % 4 = 0 ∧
      align (align 5 4) 4 = align 5 4 ∧ ∀ m, 5 ≤ 4 * m → align 5 4 ≤ 4 * m :=
  C10_align_least_multiple 5 4 2 rfl (by decide) (by decide)

/-- Embedding of the Metal `MTLSizeAndAlign` layout descriptor. -/
structure MTLSizeAndAlign where
  size : Nat
  align : Nat
  deriving DecidableEq

/-- Value of `METAL_CONSTANT_BUFFER_OFFSET_ALIGNMENT` when compiled for
the iOS simulator. -/
def METAL_CONSTANT_BUFFER_OFFSET_ALIGNMENT_IOS_SIMULATOR : Nat := 256

/-- Value of `METAL_CONSTANT_BUFFER_OFFSET_ALIGNMENT` when compiled for
an iOS device. -/
def METAL_CONSTANT_BUFFER_OFFSET_ALIGNMENT_IOS : Nat := 4

/-- Value of `METAL_CONSTANT_BUFFER_OFFSET_ALIGNMENT` on other (macOS)
deployment targets. -/
def METAL_CONSTANT_BUFFER_OFFSET_ALIGNMENT_MACOS : Nat := 32

/-- Embedding of `MetalRingBuffer::computeSlotSize`:
`align(align(layout.size, layout.align), METAL_CONSTANT_BUFFER_OFFSET_ALIGNMENT)`,
with the compile-time platform alignment constant as explicit parameter `A`. -/
def computeSlotSize (layout : MTLSizeAndAlign) (A : Nat) : Nat :=
  align (align layout.size layout.align) A

/-- Modelled from the words of the spec, for comparison with
`computeSlotSize`: slot size equals max(requested size, requested
alignment) rounded up to the platform minimum offset alignment. -/
def specSlotSize (layout : MTLSizeAndAlign) (A : Nat) : Nat :=
  align (max layout.size layout.align) A

/-- State of one `MetalRingBuffer` and of its environment.  Native buffer
handles are modelled as natural numbers drawn from the fresh-handle
counter `nextHandle`; `auxHandle` models `mAuxBuffer` (`none` when the
aux buffer is nil); `pendingCallbacks` counts completion handlers that
have been registered on command buffers and have not fired yet; `alive`
records whether the `std::shared_ptr` cell holding `mOccupiedSlots` is
still owned by a live ring buffer, which is what the weak references
captured by the handlers observe. -/
structure RingState where
  alive : Bool
  bufferHandle : Nat
  auxHandle : Option Nat
  slotSizeBytes : Nat
  slotCount : Nat
  currentSlot : Nat
  occupiedSlots : Nat
  pendingCallbacks : Nat
  nextHandle : Nat
  deriving DecidableEq

/-- Embedding of the `MetalRingBuffer` constructor: allocates the main
buffer (handle `h0`), computes the slot size from the layout, and starts
with `mCurrentSlot = 0` and `mOccupiedSlots` initialized to `1`. -/
def mkRingBuffer (h0 : Nat) (layout : MTLSizeAndAlign) (A : Nat) (slotCount : Nat) :
    RingState :=
  { alive := true,
    bufferHandle := h0,
    auxHandle := none,
    slotSizeBytes := computeSlotSize layout A,
    slotCount := slotCount,
    currentSlot := 0,
    occupiedSlots := 1,
    pendingCallbacks := 0,
    nextHandle := h0 + 1 }

/-- Embedding of `MetalRingBuffer::getCurrentAllocation`: the aux buffer
at offset 0 when one exists, otherwise the main buffer at the current
slot offset. -/
def getCurrentAllocation (s : RingState) : Nat × Nat :=
  match s.auxHandle with
  | some h => (h, 0)
  | none => (s.bufferHandle, s.currentSlot * s.slotSizeBytes)

/-- Embedding of `MetalRingBuffer::createNewAllocation`.  When the
occupied-slot count equals the slot count, a fresh one-off aux buffer is
allocated and returned at offset 0.  Otherwise the current slot advances
circularly, the occupied-slot count is incremented, and then either the
existing aux buffer is released or, when there is none, a completion
handler that will decrement the shared counter is registered on the
command buffer. -/
def createNewAllocation (s : RingState) : RingState × (Nat × Nat) :=
  if s.occupiedSlots = s.slotCount then
    ({ s with auxHandle := some s.nextHandle, nextHandle := s.nextHandle + 1 },
      (s.nextHandle, 0))
  else
    let s1 := { s with currentSlot := (s.currentSlot + 1) % s.slotCount,
                       occupiedSlots := s.occupiedSlots + 1 }
    let s2 := match s.auxHandle with
      | some _ => { s1 with auxHandle := none }
      | none => { s1 with pendingCallbacks := s1.pendingCallbacks + 1 }
    (s2, getCurrentAllocation s2)

/-- Embedding of one completion handler firing: the handler locks its
weak reference to the shared occupied-slot counter; if the ring buffer is
still alive it decrements the counter, otherwise it does nothing. -/
def fireCallback (s : RingState) : RingState :=
  if s.pendingCallbacks = 0 then s
  else
    { s with pendingCallbacks := s.pendingCallbacks - 1,
             occupiedSlots := if s.alive then s.occupiedSlots - 1 else s.occupiedSlots }

/-- Embedding of the `MetalRingBuffer` destructor, as observed by the
outstanding completion handlers: the owning `std::shared_ptr` of the
occupied-slot counter is released, so later weak-reference locks fail. -/
def destroyRingBuffer (s : RingState) : RingState :=
  { s with alive := false }

/-- Embedding of `MetalRingBuffer::canAccomodateLayout`:
`mSlotSizeBytes >= computeSlotSize(layout)`. -/
def canAccomodateLayout (A : Nat) (s : RingState) (layout : MTLSizeAndAlign) : Bool :=
  decide (s.slotSizeBytes ≥ computeSlotSize layout A)

/-- C5: the claim as stated is false.  On an iOS device (platform
alignment 4), the layout with size 33 and alignment 32 gets slot size
`align(align(33, 32), 4) = 64`, while max(size, alignment) rounded up to
the platform alignment would be `align(max(33, 32), 4) = 36`. -/
theorem C5_counterexample :
    computeSlotSize ⟨33, 32⟩ METAL_CONSTANT_BUFFER_OFFSET_ALIGNMENT_IOS = 64 ∧
    specSlotSize ⟨33, 32⟩ METAL_CONSTANT_BUFFER_OFFSET_ALIGNMENT_IOS = 36 ∧
    computeSlotSize ⟨33, 32⟩ METAL_CONSTANT_BUFFER_OFFSET_ALIGNMENT_IOS ≠
      specSlotSize ⟨33, 32⟩ METAL_CONSTANT_BUFFER_OFFSET_ALIGNMENT_IOS :=
  ⟨by decide, by decide, by decide⟩

/-- C5 (amended): the slot size equals the requested size rounded up to
the requested alignment and the result rounded up to the platform minimum
offset alignment (both alignments nonzero powers of two, no 64-bit
overflow): `computeSlotSize ⟨sz, a⟩ A` is the least multiple of `A` at or
above `align sz a`, which in turn is the least multiple of `a` at or
above `sz`.  In particular, a ring buffer built with `slotCount = 2`,
layout size 40 and alignment 8 and platform alignment 32 has slot size
64. -/
theorem C5_slot_size (sz a A k j h0 : Nat) (hak : a = 2 ^ k) (hAj : A = 2 ^ j)
    (hk : k < 64) (hj : j < 64) (hov : sz + a + A < 2 ^ 64) :
    (align sz a ≤ computeSlotSize ⟨sz, a⟩ A ∧
     computeSlotSize ⟨sz, a⟩ A < align sz a + A ∧
     computeSlotSize ⟨sz, a⟩ A % A = 0 ∧
     (∀ m, align sz a ≤ A * m → computeSlotSize ⟨sz, a⟩ A ≤ A * m) ∧
     sz ≤ align sz a ∧ align sz a < sz + a ∧ align sz a % a = 0) ∧
    (mkRingBuffer h0 ⟨40, 8⟩ 32 2).slotSizeBytes = 64 := by
  have ha : 0 < a := by rw [hak]; exact Nat.pos_pow_of_pos k (by norm_num)
  have hA : 0 < A := by rw [hAj]; exact Nat.pos_pow_of_pos j (by norm_num)
  have hov1 : sz + a - 1 < 2 ^ 64 := by omega
  have hinner := align_least_multiple sz a k hak (Nat.le_of_lt hk) hov1
  obtain ⟨h1, h2, h3, _, _⟩ := hinner
  have hov2 : align sz a + A - 1 < 2 ^ 64 := by omega
  have houter := align_least_multiple (align sz a) A j hAj (Nat.le_of_lt hj) hov2
  obtain ⟨g1, g2, g3, _, g5⟩ := houter
  refine ⟨⟨g1, g2, g3, g5, h1, h2, h3⟩, ?_⟩
  show computeSlotSize ⟨40, 8⟩ 32 = 64
  decide

/-- C5 witness: the amended theorem instantiated at size 40, alignment 8
and platform alignment 32. -/
theorem C5_slot_size_witness :
    (align 40 8 ≤ computeSlotSize ⟨40, 8⟩ 32 ∧
     computeSlotSize ⟨40, 8⟩ 32 < align 40 8 + 32 ∧
     computeSlotSize ⟨40, 8⟩ 32 % 32 = 0 ∧
     (∀ m, align 40 8 ≤ 32 * m → computeSlotSize ⟨40, 8⟩ 32 ≤ 32 * m) ∧
     40 ≤ align 40 8 ∧ align 40 8 < 40 + 8 ∧ align 40 8 % 8 = 0) ∧
    (mkRingBuffer 0 ⟨40, 8⟩ 32 2).slotSizeBytes = 64 :=
  C5_slot_size 40 8 32 3 5 0 rfl rfl (by decide) (by decide) (by decide)

/-- C6: `canAccomodateLayout layout` returns true exactly when the
rounded-up slot size of `layout` fits within the fixed slot size of the
ring; in particular, against the macOS alignment constant 32, the layout
with size 64 and alignment 16 is accommodated exactly when the slot size
is at least 64. -/
theorem C6_canAccomodateLayout (s : RingState) (layout : MTLSizeAndAlign) (A : Nat) :
    (canAccomodateLayout A s layout = true ↔ computeSlotSize layout A ≤ s.slotSizeBytes) ∧
    (canAccomodateLayout METAL_CONSTANT_BUFFER_OFFSET_ALIGNMENT_MACOS s ⟨64, 16⟩ = true ↔
      64 ≤ s.slotSizeBytes) := by
  constructor
  · simp [canAccomodateLayout, ge_iff_le]
  · have h64 : computeSlotSize ⟨64, 16⟩ METAL_CONSTANT_BUFFER_OFFSET_ALIGNMENT_MACOS = 64 := by
      decide
    simp [canAccomodateLayout, ge_iff_le, h64]

/-- State of the ring buffer after `k` consecutive `createNewAllocation`
calls, discarding the returned allocations. -/
def allocIter (s : RingState) : Nat → RingState
  | 0 => s
  | k + 1 => (createNewAllocation (allocIter s k)).1

/-- The (handle, offset) pairs returned by the first `k` consecutive
`createNewAllocation` calls, in call order. -/
def allocResults (s : RingState) : Nat → List (Nat × Nat)
  | 0 => []
  | k + 1 => allocResults s k ++ [(createNewAllocation (allocIter s k)).2]

/-- After `k < N` consecutive allocations on a fresh ring with `N` slots,
the cursor sits on slot `k`, `k + 1` slots are occupied, `k` completion
handlers are registered, and no aux buffer exists. -/
lemma allocIter_mkRing (h0 : Nat) (layout : MTLSizeAndAlign) (A N : Nat) :
    ∀ k, k < N →
      allocIter (mkRingBuffer h0 layout A N) k =
        { mkRingBuffer h0 layout A N with
          currentSlot := k, occupiedSlots := k + 1, pendingCallbacks := k } := by
  intro k
  induction k with
  | zero => intro _; rfl
  | succ k ih =>
    intro hk
    have hk' : k < N := Nat.lt_of_succ_lt hk
    have hne : ¬(k + 1 = N) := by omega
    have hmod : (k + 1) % N = k + 1 := Nat.mod_eq_of_lt hk
    rw [show allocIter (mkRingBuffer h0 layout A N) (k + 1) =
        (createNewAllocation (allocIter (mkRingBuffer h0 layout A N) k)).1 from rfl,
      ih hk']
    simp [createNewAllocation, mkRingBuffer, hne, hmod]

/-- The result of the `(k+1)`-st consecutive allocation on a fresh ring
with `N` slots, for `k < N`: the slot `k + 1` of the main buffer while
slots remain, and a fresh aux buffer at offset 0 on the last call. -/
lemma allocResults_mkRing (h0 : Nat) (layout : MTLSizeAndAlign) (A N : Nat) :
    ∀ k, k ≤ N →
      allocResults (mkRingBuffer h0 layout A N) k =
        (List.range k).map fun i =>
          if i + 1 = N then (h0 + 1, 0)
          else (h0, (i + 1) * computeSlotSize layout A) := by
  intro k
  induction k with
  | zero => intro _; rfl
  | succ k ih =>
    intro hk
    have hk' : k < N := hk
    rw [allocResults, ih (Nat.le_of_lt hk'), List.range_succ, List.map_append,
      allocIter_mkRing h0 layout A N k hk']
    congr 1
    by_cases hlast : k + 1 = N
    · simp only [createNewAllocation, mkRingBuffer]
      simp [hlast]
    · have hmod : (k + 1) % N = k + 1 := Nat.mod_eq_of_lt (by omega)
      simp only [createNewAllocation, mkRingBuffer, getCurrentAllocation]
      simp [hlast, hmod]

/-- Full state of a fresh ring with `M + 1` slots after `M + 1`
consecutive allocations: all slots occupied and the first overflow aux
buffer created. -/
lemma allocIter_mkRing_full (h0 : Nat) (layout : MTLSizeAndAlign) (A M : Nat) :
    allocIter (mkRingBuffer h0 layout A (M + 1)) (M + 1) =
      { mkRingBuffer h0 layout A (M + 1) with
        currentSlot := M, occupiedSlots := M + 1, pendingCallbacks := M,
        auxHandle := some (h0 + 1), nextHandle := h0 + 2 } := by
  rw [show allocIter (mkRingBuffer h0 layout A (M + 1)) (M + 1) =
      (createNewAllocation (allocIter (mkRingBuffer h0 layout A (M + 1)) M)).1 from rfl,
    allocIter_mkRing h0 layout A (M + 1) M (Nat.lt_succ_self M)]
  simp [createNewAllocation, mkRingBuffer]

/-- C1: the claim as stated is false.  On a fresh ring buffer with
`slotCount = 2`, layout size 40 and alignment 8 and platform alignment 32,
the first `createNewAllocation` call returns offset 64 (one slot size),
not offset 0: the constructor already counts slot 0 as the occupied
current allocation. -/
theorem C1_counterexample :
    (createNewAllocation (mkRingBuffer 0 ⟨40, 8⟩ 32 2)).2 = (0, 64) ∧ (64 : Nat) ≠ 0 :=
  ⟨by decide, by decide⟩

/-- C1 (amended): on a fresh ring with `slotCount = N ≥ 1` and a positive
slot size, the `N` consecutive `createNewAllocation` calls made before any
completion return `N` distinct (handle, offset) pairs: the first `N - 1`
calls return the main buffer at offsets `slotSize, 2*slotSize, ...,
(N-1)*slotSize`, and the `N`-th call returns a freshly created aux buffer
at offset 0; after those `N` calls the occupied (in-flight) count equals
`N`. -/
theorem C1_ring_allocation_sequence (h0 : Nat) (layout : MTLSizeAndAlign) (A N : Nat)
    (hN : 1 ≤ N) (hs : 0 < computeSlotSize layout A) :
    allocResults (mkRingBuffer h0 layout A N) N =
      ((List.range (N - 1)).map fun i => (h0, (i + 1) * computeSlotSize layout A))
        ++ [(h0 + 1, 0)] ∧
    (allocResults (mkRingBuffer h0 layout A N) N).Nodup ∧
    (allocResults (mkRingBuffer h0 layout A N) N).length = N ∧
    (allocIter (mkRingBuffer h0 layout A N) N).occupiedSlots = N := by
  obtain ⟨M, rfl⟩ : ∃ M, N = M + 1 := ⟨N - 1, by omega⟩
  have hres := allocResults_mkRing h0 layout A (M + 1) (M + 1) (le_refl _)
  have hsplit :
      allocResults (mkRingBuffer h0 layout A (M + 1)) (M + 1) =
        ((List.range M).map fun i => (h0, (i + 1) * computeSlotSize layout A))
          ++ [(h0 + 1, 0)] := by
    rw [hres, List.range_succ, List.map_append]
    congr 1
    · apply List.map_congr_left
      intro i hi
      have : i < M := List.mem_range.mp hi
      have : ¬(i + 1 = M + 1) := by omega
      simp [this]
    · simp
  have hnodup : (allocResults (mkRingBuffer h0 layout A (M + 1)) (M + 1)).Nodup := by
    rw [hsplit]
    rw [List.nodup_append]
    refine ⟨?_, List.nodup_singleton _, ?_⟩
    · apply List.Nodup.map _ (List.nodup_range M)
      intro i j hij
      simp only [Prod.mk.injEq] at hij
      have := Nat.eq_of_mul_eq_mul_right hs hij.2
      omega
    · intro x hx hmem
      simp only [List.mem_map, List.mem_range] at hx
      obtain ⟨i, _, rfl⟩ := hx
      simp only [List.mem_singleton, Prod.mk.injEq] at hmem
      omega
  refine ⟨hsplit, hnodup, ?_, ?_⟩
  · rw [hsplit]
    simp
  · rw [allocIter_mkRing_full]

/-- C1 witness: the amended theorem instantiated on a ring with two slots
of 64 bytes each (layout size 40, alignment 8, platform alignment 32). -/
theorem C1_ring_allocation_sequence_witness :
    allocResults (mkRingBuffer 0 ⟨40, 8⟩ 32 2) 2 =
      ((List.range 1).map fun i => (0, (i + 1) * computeSlotSize ⟨40, 8⟩ 32))
        ++ [(0 + 1, 0)] ∧
    (allocResults (mkRingBuffer 0 ⟨40, 8⟩ 32 2) 2).Nodup ∧
    (allocResults (mkRingBuffer 0 ⟨40, 8⟩ 32 2) 2).length = 2 ∧
    (allocIter (mkRingBuffer 0 ⟨40, 8⟩ 32 2) 2).occupiedSlots = 2 :=
  C1_ring_allocation_sequence 0 ⟨40, 8⟩ 32 2 (by decide) (by decide)

/-- C2: on a fresh ring with `slotCount = N ≥ 1`, the `(N+1)`-st
`createNewAllocation` call made before any completion returns offset 0 in
a freshly created aux buffer: its handle is the next fresh handle
`h0 + 2`, distinct from the main buffer handle `h0` and from the aux
buffer `h0 + 1` that existed before the call. -/
theorem C2_overflow_allocation (h0 : Nat) (layout : MTLSizeAndAlign) (A N : Nat)
    (hN : 1 ≤ N) :
    (createNewAllocation (allocIter (mkRingBuffer h0 layout A N) N)).2 = (h0 + 2, 0) ∧
    (createNewAllocation (allocIter (mkRingBuffer h0 layout A N) N)).1.auxHandle =
      some (h0 + 2) ∧
    (allocIter (mkRingBuffer h0 layout A N) N).auxHandle = some (h0 + 1) ∧
    h0 + 2 ≠ h0 ∧ h0 + 2 ≠ h0 + 1 := by
  obtain ⟨M, rfl⟩ : ∃ M, N = M + 1 := ⟨N - 1, by omega⟩
  rw [allocIter_mkRing_full]
  refine ⟨?_, ?_, ?_, by omega, by omega⟩
  · simp only [createNewAllocation, mkRingBuffer]
    simp
  · simp only [createNewAllocation, mkRingBuffer]
    simp
  · simp [mkRingBuffer]

/-- C2 witness: the theorem instantiated on a ring with two slots. -/
theorem C2_overflow_allocation_witness :
    (createNewAllocation (allocIter (mkRingBuffer 0 ⟨40, 8⟩ 32 2) 2)).2 = (0 + 2, 0) ∧
    (createNewAllocation (allocIter (mkRingBuffer 0 ⟨40, 8⟩ 32 2) 2)).1.auxHandle =
      some (0 + 2) ∧
    (allocIter (mkRingBuffer 0 ⟨40, 8⟩ 32 2) 2).auxHandle = some (0 + 1) ∧
    0 + 2 ≠ 0 ∧ 0 + 2 ≠ 0 + 1 :=
  C2_overflow_allocation 0 ⟨40, 8⟩ 32 2 (by decide)

/-- C3: the claim as stated is false.  Take a ring with two slots, run two
allocations (the second creates an aux buffer) and let one completion
fire: the occupied count is then below `slotCount` and an aux buffer
exists.  The next `createNewAllocation` call takes the non-overflow path
and discards the aux buffer, but registers no completion handler: the
pending-handler count is unchanged. -/
theorem C3_counterexample :
    (fireCallback (allocIter (mkRingBuffer 0 ⟨40, 8⟩ 32 2) 2)).occupiedSlots <
      (fireCallback (allocIter (mkRingBuffer 0 ⟨40, 8⟩ 32 2) 2)).slotCount ∧
    (fireCallback (allocIter (mkRingBuffer 0 ⟨40, 8⟩ 32 2) 2)).auxHandle = some 1 ∧
    (createNewAllocation
      (fireCallback (allocIter (mkRingBuffer 0 ⟨40, 8⟩ 32 2) 2))).1.auxHandle = none ∧
    (createNewAllocation
      (fireCallback (allocIter (mkRingBuffer 0 ⟨40, 8⟩ 32 2) 2))).1.pendingCallbacks =
      (fireCallback (allocIter (mkRingBuffer 0 ⟨40, 8⟩ 32 2) 2)).pendingCallbacks := by
  refine ⟨by decide, by decide, by decide, by decide⟩

/-- C3 (amended): whenever `createNewAllocation` takes the non-overflow
path (occupied count below `slotCount`), it advances the cursor to
`(cursor + 1) % slotCount`, increments the occupied count by one, leaves
no aux buffer behind, and then either (if an aux buffer existed) discards
it without registering a completion handler, or (if none existed)
registers exactly one completion handler that will decrement the shared
counter; the call returns the new slot of the main buffer with its
offset. -/
theorem C3_non_overflow_path (s : RingState) (h : s.occupiedSlots < s.slotCount) :
    (createNewAllocation s).1.currentSlot = (s.currentSlot + 1) % s.slotCount ∧
    (createNewAllocation s).1.occupiedSlots = s.occupiedSlots + 1 ∧
    (createNewAllocation s).1.auxHandle = none ∧
    (s.auxHandle = none →
      (createNewAllocation s).1.pendingCallbacks = s.pendingCallbacks + 1) ∧
    (s.auxHandle ≠ none →
      (createNewAllocation s).1.pendingCallbacks = s.pendingCallbacks) ∧
    (createNewAllocation s).2 =
      (s.bufferHandle, ((s.currentSlot + 1) % s.slotCount) * s.slotSizeBytes) := by
  have hne : ¬(s.occupiedSlots = s.slotCount) := Nat.ne_of_lt h
  cases haux : s.auxHandle with
  | none =>
    simp only [createNewAllocation, getCurrentAllocation]
    simp [hne, haux]
  | some a =>
    simp only [createNewAllocation, getCurrentAllocation]
    simp [hne, haux]

/-- C3 witness: the amended theorem instantiated on a freshly constructed
two-slot ring buffer. -/
theorem C3_non_overflow_path_witness :
    (createNewAllocation (mkRingBuffer 0 ⟨40, 8⟩ 32 2)).1.currentSlot =
      ((mkRingBuffer 0 ⟨40, 8⟩ 32 2).currentSlot + 1) %
        (mkRingBuffer 0 ⟨40, 8⟩ 32 2).slotCount ∧
    (createNewAllocation (mkRingBuffer 0 ⟨40, 8⟩ 32 2)).1.occupiedSlots =
      (mkRingBuffer 0 ⟨40, 8⟩ 32 2).occupiedSlots + 1 ∧
    (createNewAllocation (mkRingBuffer 0 ⟨40, 8⟩ 32 2)).1.auxHandle = none ∧
    ((mkRingBuffer 0 ⟨40, 8⟩ 32 2).auxHandle = none →
      (createNewAllocation (mkRingBuffer 0 ⟨40, 8⟩ 32 2)).1.pendingCallbacks =
        (mkRingBuffer 0 ⟨40, 8⟩ 32 2).pendingCallbacks + 1) ∧
    ((mkRingBuffer 0 ⟨40, 8⟩ 32 2).auxHandle ≠ none →
      (createNewAllocation (mkRingBuffer 0 ⟨40, 8⟩ 32 2)).1.pendingCallbacks =
        (mkRingBuffer 0 ⟨40, 8⟩ 32 2).pendingCallbacks) ∧
    (createNewAllocation (mkRingBuffer 0 ⟨40, 8⟩ 32 2)).2 =
      ((mkRingBuffer 0 ⟨40, 8⟩ 32 2).bufferHandle,
        (((mkRingBuffer 0 ⟨40, 8⟩ 32 2).currentSlot + 1) %
          (mkRingBuffer 0 ⟨40, 8⟩ 32 2).slotCount) *
          (mkRingBuffer 0 ⟨40, 8⟩ 32 2).slotSizeBytes) :=
  C3_non_overflow_path (mkRingBuffer 0 ⟨40, 8⟩ 32 2) (by decide)

/-- One step of an interleaving of `createNewAllocation` calls (on the
backend thread) and completion-handler firings (from the device
scheduler). -/
inductive RBStep
  | alloc
  | fire
  deriving DecidableEq

/-- Apply one interleaving step to the ring state. -/
def ringStep (s : RingState) : RBStep → RingState
  | RBStep.alloc => (createNewAllocation s).1
  | RBStep.fire => fireCallback s

/-- Run a whole interleaving from a state. -/
def runRing (s : RingState) (l : List RBStep) : RingState :=
  l.foldl ringStep s

/-- Invariant maintained by a live ring with `N` slots: the occupied
count stays within `N` and strictly exceeds the number of outstanding
completion handlers. -/
def RingInv (N : Nat) (s : RingState) : Prop :=
  s.alive = true ∧ s.slotCount = N ∧ s.occupiedSlots ≤ N ∧
    s.pendingCallbacks + 1 ≤ s.occupiedSlots

/-- Every interleaving step preserves the ring invariant. -/
lemma ringStep_preserves_inv (N : Nat) (s : RingState) (st : RBStep)
    (h : RingInv N s) : RingInv N (ringStep s st) := by
  obtain ⟨ha, hc, ho, hp⟩ := h
  cases st with
  | alloc =>
    by_cases he : s.occupiedSlots = s.slotCount
    · simp only [ringStep, createNewAllocation, if_pos he]
      exact ⟨ha, hc, ho, hp⟩
    · cases haux : s.auxHandle with
      | some a =>
        simp only [ringStep, createNewAllocation, if_neg he, haux]
        exact ⟨ha, hc, by simp; omega, by simp; omega⟩
      | none =>
        simp only [ringStep, createNewAllocation, if_neg he, haux]
        exact ⟨ha, hc, by simp; omega, by simp; omega⟩
  | fire =>
    by_cases hz : s.pendingCallbacks = 0
    · simp only [ringStep, fireCallback, if_pos hz]
      exact ⟨ha, hc, ho, hp⟩
    · simp only [ringStep, fireCallback, if_neg hz, ha, if_true]
      exact ⟨rfl, hc, by simp; omega, by simp; omega⟩

/-- The ring invariant holds along every interleaving. -/
lemma runRing_inv (N : Nat) (l : List RBStep) :
    ∀ s, RingInv N s → RingInv N (runRing s l) := by
  induction l with
  | nil => intro s h; exact h
  | cons st l ih =>
    intro s h
    exact ih (ringStep s st) (ringStep_preserves_inv N s st h)

/-- A freshly constructed ring with at least one slot satisfies the
invariant. -/
lemma mkRingBuffer_inv (h0 : Nat) (layout : MTLSizeAndAlign) (A N : Nat)
    (hN : 1 ≤ N) : RingInv N (mkRingBuffer h0 layout A N) :=
  ⟨rfl, rfl, hN, le_refl 1⟩

/-- C4: along every interleaving of `createNewAllocation` calls and
completion-handler firings on a live ring with `N ≥ 1` slots, the
in-flight (occupied) count never exceeds `N` and never drops below 1 (so
it never goes negative in the unsigned counter), and whenever a
completion handler is outstanding, its firing decrements the count by
exactly one without underflow. -/
theorem C4_inflight_count_bounds (h0 : Nat) (layout : MTLSizeAndAlign) (A N : Nat)
    (hN : 1 ≤ N) (tr : List RBStep) :
    (runRing (mkRingBuffer h0 layout A N) tr).occupiedSlots ≤ N ∧
    1 ≤ (runRing (mkRingBuffer h0 layout A N) tr).occupiedSlots ∧
    (0 < (runRing (mkRingBuffer h0 layout A N) tr).pendingCallbacks →
      (fireCallback (runRing (mkRingBuffer h0 layout A N) tr)).occupiedSlots + 1 =
        (runRing (mkRingBuffer h0 layout A N) tr).occupiedSlots) := by
  obtain ⟨ha, hc, ho, hp⟩ :=
    runRing_inv N tr (mkRingBuffer h0 layout A N) (mkRingBuffer_inv h0 layout A N hN)
  refine ⟨ho, by omega, ?_⟩
  intro hpend
  have hz : ¬((runRing (mkRingBuffer h0 layout A N) tr).pendingCallbacks = 0) := by omega
  simp only [fireCallback, if_neg hz, ha, if_true]
  omega

/-- C4 witness: two allocations then one completion on a two-slot ring. -/
theorem C4_inflight_count_bounds_witness :
    (runRing (mkRingBuffer 0 ⟨40, 8⟩ 32 2) [RBStep.alloc, RBStep.alloc, RBStep.fire]).occupiedSlots ≤ 2 ∧
    1 ≤ (runRing (mkRingBuffer 0 ⟨40, 8⟩ 32 2) [RBStep.alloc, RBStep.alloc, RBStep.fire]).occupiedSlots ∧
    (0 < (runRing (mkRingBuffer 0 ⟨40, 8⟩ 32 2) [RBStep.alloc, RBStep.alloc, RBStep.fire]).pendingCallbacks →
      (fireCallback (runRing (mkRingBuffer 0 ⟨40, 8⟩ 32 2) [RBStep.alloc, RBStep.alloc, RBStep.fire])).occupiedSlots + 1 =
        (runRing (mkRingBuffer 0 ⟨40, 8⟩ 32 2) [RBStep.alloc, RBStep.alloc, RBStep.fire]).occupiedSlots) :=
  C4_inflight_count_bounds 0 ⟨40, 8⟩ 32 2 (by decide) [RBStep.alloc, RBStep.alloc, RBStep.fire]

/-- C9: a completion handler that fires after the ring buffer has been
destroyed is a no-op on the ring state: the weak reference fails to lock,
so the occupied count and every other field of the (former) ring are
untouched; when the ring is still alive the handler only decrements the
shared occupied counter. -/
theorem C9_callback_after_destroy (s : RingState) :
    ((fireCallback (destroyRingBuffer s)).occupiedSlots = s.occupiedSlots ∧
     (fireCallback (destroyRingBuffer s)).currentSlot = s.currentSlot ∧
     (fireCallback (destroyRingBuffer s)).auxHandle = s.auxHandle ∧
     (fireCallback (destroyRingBuffer s)).bufferHandle = s.bufferHandle ∧
     (fireCallback (destroyRingBuffer s)).slotSizeBytes = s.slotSizeBytes ∧
     (fireCallback (destroyRingBuffer s)).slotCount = s.slotCount ∧
     (fireCallback (destroyRingBuffer s)).nextHandle = s.nextHandle) ∧
    (s.alive = true → 0 < s.pendingCallbacks →
      fireCallback s =
        { s with occupiedSlots := s.occupiedSlots - 1,
                 pendingCallbacks := s.pendingCallbacks - 1 }) := by
  constructor
  · by_cases hz : s.pendingCallbacks = 0
    · simp [fireCallback, destroyRingBuffer, hz]
    · simp [fireCallback, destroyRingBuffer, hz]
  · intro ha hpend
    have hz : ¬(s.pendingCallbacks = 0) := by omega
    simp [fireCallback, hz, ha]

/-- C9 witness: the theorem instantiated on the state of a two-slot ring
after one allocation (one completion handler outstanding). -/
theorem C9_callback_after_destroy_witness :
    ((fireCallback (destroyRingBuffer (allocIter (mkRingBuffer 0 ⟨40, 8⟩ 32 2) 1))).occupiedSlots =
       (allocIter (mkRingBuffer 0 ⟨40, 8⟩ 32 2) 1).occupiedSlots ∧
     (fireCallback (destroyRingBuffer (allocIter (mkRingBuffer 0 ⟨40, 8⟩ 32 2) 1))).currentSlot =
       (allocIter (mkRingBuffer 0 ⟨40, 8⟩ 32 2) 1).currentSlot ∧
     (fireCallback (destroyRingBuffer (allocIter (mkRingBuffer 0 ⟨40, 8⟩ 32 2) 1))).auxHandle =
       (allocIter (mkRingBuffer 0 ⟨40, 8⟩ 32 2) 1).auxHandle ∧
     (fireCallback (destroyRingBuffer (allocIter (mkRingBuffer 0 ⟨40, 8⟩ 32 2) 1))).bufferHandle =
       (allocIter (mkRingBuffer 0 ⟨40, 8⟩ 32 2) 1).bufferHandle ∧
     (fireCallback (destroyRingBuffer (allocIter (mkRingBuffer 0 ⟨40, 8⟩ 32 2) 1))).slotSizeBytes =
       (allocIter (mkRingBuffer 0 ⟨40, 8⟩ 32 2) 1).slotSizeBytes ∧
     (fireCallback (destroyRingBuffer (allocIter (mkRingBuffer 0 ⟨40, 8⟩ 32 2) 1))).slotCount =
       (allocIter (mkRingBuffer 0 ⟨40, 8⟩ 32 2) 1).slotCount ∧
     (fireCallback (destroyRingBuffer (allocIter (mkRingBuffer 0 ⟨40, 8⟩ 32 2) 1))).nextHandle =
       (allocIter (mkRingBuffer 0 ⟨40, 8⟩ 32 2) 1).nextHandle) ∧
    ((allocIter (mkRingBuffer 0 ⟨40, 8⟩ 32 2) 1).alive = true →
      0 < (allocIter (mkRingBuffer 0 ⟨40, 8⟩ 32 2) 1).pendingCallbacks →
      fireCallback (allocIter (mkRingBuffer 0 ⟨40, 8⟩ 32 2) 1) =
        { allocIter (mkRingBuffer 0 ⟨40, 8⟩ 32 2) 1 with
          occupiedSlots := (allocIter (mkRingBuffer 0 ⟨40, 8⟩ 32 2) 1).occupiedSlots - 1,
          pendingCallbacks :=
            (allocIter (mkRingBuffer 0 ⟨40, 8⟩ 32 2) 1).pendingCallbacks - 1 }) :=
  C9_callback_after_destroy (allocIter (mkRingBuffer 0 ⟨40, 8⟩ 32 2) 1)

/-- Buffer categories of `TrackedMetalBuffer::Type` that can be counted.
`Type::NONE` is excluded by the assertions guarding every counter
access. -/
inductive BufType
  | generic
  | ring
  | staging
  deriving DecidableEq

/-- Embedding of `TrackedMetalBuffer::toIndex` on the tracked
categories. -/
def toIndex : BufType → Nat
  | BufType.generic => 0
  | BufType.ring => 1
  | BufType.staging => 2

/-- The static array `TrackedMetalBuffer::aliveBuffers` of per-category
alive counters, one field per category index. -/
structure TrackerState where
  generic : Nat
  ring : Nat
  staging : Nat
  deriving DecidableEq

/-- The zero-initialized static counters at process start. -/
def initialTracker : TrackerState := ⟨0, 0, 0⟩

/-- Embedding of `aliveBuffers[toIndex(type)]++`. -/
def bumpAlive (s : TrackerState) : BufType → TrackerState
  | BufType.generic => { s with generic := s.generic + 1 }
  | BufType.ring => { s with ring := s.ring + 1 }
  | BufType.staging => { s with staging := s.staging + 1 }

/-- Embedding of `aliveBuffers[toIndex(mType)]--`. -/
def dropAlive (s : TrackerState) : BufType → TrackerState
  | BufType.generic => { s with generic := s.generic - 1 }
  | BufType.ring => { s with ring := s.ring - 1 }
  | BufType.staging => { s with staging := s.staging - 1 }

/-- Embedding of the per-category query `getAliveBuffers(Type type)`. -/
def getAliveBuffersOf (s : TrackerState) : BufType → Nat
  | BufType.generic => s.generic
  | BufType.ring => s.ring
  | BufType.staging => s.staging

/-- Embedding of `getAliveBuffers()`: the sum of the per-category
counters. -/
def getAliveBuffers (s : TrackerState) : Nat :=
  s.generic + s.ring + s.staging

/-- Construction or destruction of one `TrackedMetalBuffer`, with its
category and whether its native handle is non-null. -/
inductive TEvent
  | construct (t : BufType) (nonNull : Bool)
  | destroy (t : BufType) (nonNull : Bool)
  deriving DecidableEq

/-- Effect of one `TrackedMetalBuffer` constructor or destructor on the
counters: both are guarded by `if (buffer)` / `if (mBuffer)` and touch the
counters only when the handle is non-null. -/
def applyEvent (s : TrackerState) : TEvent → TrackerState
  | TEvent.construct t true => bumpAlive s t
  | TEvent.construct _ false => s
  | TEvent.destroy t true => dropAlive s t
  | TEvent.destroy _ false => s

/-- Run a whole construction and destruction history on the counters. -/
def runEvents (s : TrackerState) (es : List TEvent) : TrackerState :=
  es.foldl applyEvent s

/-- A destructor only runs on a live previously constructed object, so in
any real history each non-null destruction happens while its category
counter is positive.  This predicate characterizes such histories. -/
def validFrom (s : TrackerState) : List TEvent → Bool
  | [] => true
  | TEvent.destroy t true :: r =>
      decide (0 < getAliveBuffersOf s t) &&
        validFrom (applyEvent s (TEvent.destroy t true)) r
  | e :: r => validFrom (applyEvent s e) r

/-- Number of constructions with a non-null handle in category `t`. -/
def consCount (t : BufType) : List TEvent → Nat
  | [] => 0
  | e :: r => (if e = TEvent.construct t true then 1 else 0) + consCount t r

/-- Number of destructions with a non-null handle in category `t`. -/
def desCount (t : BufType) : List TEvent → Nat
  | [] => 0
  | e :: r => (if e = TEvent.destroy t true then 1 else 0) + desCount t r

/-- Effect of one event on one category counter. -/
lemma aliveOf_applyEvent (s : TrackerState) (e : TEvent) (t : BufType) :
    getAliveBuffersOf (applyEvent s e) t =
      if e = TEvent.construct t true then getAliveBuffersOf s t + 1
      else if e = TEvent.destroy t true then getAliveBuffersOf s t - 1
      else getAliveBuffersOf s t := by
  cases e with
  | construct u b =>
    cases b <;> cases u <;> cases t <;>
      simp [applyEvent, bumpAlive, getAliveBuffersOf]
  | destroy u b =>
    cases b <;> cases u <;> cases t <;>
      simp [applyEvent, dropAlive, getAliveBuffersOf]

/-- Unfolding of validity over one event. -/
lemma validFrom_cons (s : TrackerState) (e : TEvent) (r : List TEvent)
    (hv : validFrom s (e :: r) = true) :
    validFrom (applyEvent s e) r = true ∧
      ∀ u, e = TEvent.destroy u true → 0 < getAliveBuffersOf s u := by
  cases e with
  | construct u b =>
    refine ⟨by simpa [validFrom] using hv, by simp⟩
  | destroy u b =>
    cases b with
    | false => refine ⟨by simpa [validFrom] using hv, by simp⟩
    | true =>
      simp only [validFrom, Bool.and_eq_true, decide_eq_true_eq] at hv
      refine ⟨hv.2, ?_⟩
      intro v hveq
      injection hveq with h1 h2
      subst h1
      exact hv.1

/-- Along any valid history, each category counter plus the non-null
destructions equals the starting counter plus the non-null
constructions, and the destructions never outnumber what was
available. -/
lemma runEvents_count (t : BufType) (es : List TEvent) :
    ∀ s, validFrom s es = true →
      getAliveBuffersOf (runEvents s es) t + desCount t es =
        getAliveBuffersOf s t + consCount t es ∧
      desCount t es ≤ getAliveBuffersOf s t + consCount t es := by
  induction es with
  | nil =>
    intro s _
    simp [runEvents, consCount, desCount]
  | cons e r ih =>
    intro s hv
    obtain ⟨hv', hpos⟩ := validFrom_cons s e r hv
    obtain ⟨h1, h2⟩ := ih (applyEvent s e) hv'
    have hae := aliveOf_applyEvent s e t
    have hrun : runEvents s (e :: r) = runEvents (applyEvent s e) r := rfl
    have hcc : consCount t (e :: r) =
        (if e = TEvent.construct t true then 1 else 0) + consCount t r := rfl
    have hdc : desCount t (e :: r) =
        (if e = TEvent.destroy t true then 1 else 0) + desCount t r := rfl
    rw [hrun, hcc, hdc]
    by_cases he1 : e = TEvent.construct t true
    · have he2 : ¬(e = TEvent.destroy t true) := by rw [he1]; simp
      rw [if_pos he1] at hae
      rw [if_pos he1, if_neg he2]
      omega
    · rw [if_neg he1] at hae
      rw [if_neg he1]
      by_cases he2 : e = TEvent.destroy t true
      · have hp : 0 < getAliveBuffersOf s t := hpos t he2
        rw [if_pos he2] at hae
        rw [if_pos he2]
        omega
      · rw [if_neg he2] at hae
        rw [if_neg he2]
        omega

/-- C7: constructing a tracked buffer with a non-null handle increments
its category counter by exactly one; destruction decrements it by exactly
one when the handle was non-null and leaves the counters untouched when
it was null; therefore, along any valid construction and destruction
history starting from the zero counters, each category counter equals the
non-null constructions minus the destructions of that category, and once
every category has as many destructions as constructions the total alive
count is 0. -/
theorem C7_alive_counters (es : List TEvent) (t : BufType)
    (hv : validFrom initialTracker es = true) :
    (∀ s u, getAliveBuffersOf (applyEvent s (TEvent.construct u true)) u =
      getAliveBuffersOf s u + 1) ∧
    (∀ s u, 0 < getAliveBuffersOf s u →
      getAliveBuffersOf (applyEvent s (TEvent.destroy u true)) u + 1 =
        getAliveBuffersOf s u) ∧
    (∀ s u, applyEvent s (TEvent.construct u false) = s ∧
      applyEvent s (TEvent.destroy u false) = s) ∧
    desCount t es ≤ consCount t es ∧
    getAliveBuffersOf (runEvents initialTracker es) t =
      consCount t es - desCount t es ∧
    ((∀ u, desCount u es = consCount u es) →
      getAliveBuffers (runEvents initialTracker es) = 0) := by
  have hmain := fun u => runEvents_count u es initialTracker hv
  have hzero : ∀ u, getAliveBuffersOf initialTracker u = 0 := by
    intro u; cases u <;> rfl
  refine ⟨?_, ?_, ?_, ?_, ?_, ?_⟩
  · intro s u
    cases u <;> simp [applyEvent, bumpAlive, getAliveBuffersOf]
  · intro s u hp
    cases u <;> simp [applyEvent, dropAlive, getAliveBuffersOf] <;>
      simp [getAliveBuffersOf] at hp <;> omega
  · intro s u
    exact ⟨rfl, rfl⟩
  · have := hmain t
    rw [hzero t] at this
    omega
  · have := hmain t
    rw [hzero t] at this
    omega
  · intro hall
    have hg := hmain BufType.generic
    have hr := hmain BufType.ring
    have hs := hmain BufType.staging
    rw [hzero BufType.generic] at hg
    rw [hzero BufType.ring] at hr
    rw [hzero BufType.staging] at hs
    have h1 := hall BufType.generic
    have h2 := hall BufType.ring
    have h3 := hall BufType.staging
    show (runEvents initialTracker es).generic + (runEvents initialTracker es).ring +
      (runEvents initialTracker es).staging = 0
    have e1 : getAliveBuffersOf (runEvents initialTracker es) BufType.generic =
      (runEvents initialTracker es).generic := rfl
    have e2 : getAliveBuffersOf (runEvents initialTracker es) BufType.ring =
      (runEvents initialTracker es).ring := rfl
    have e3 : getAliveBuffersOf (runEvents initialTracker es) BufType.staging =
      (runEvents initialTracker es).staging := rfl
    omega

/-- C7 witness: a history constructing and destroying one generic and one
ring buffer. -/
theorem C7_alive_counters_witness :
    (∀ s u, getAliveBuffersOf (applyEvent s (TEvent.construct u true)) u =
      getAliveBuffersOf s u + 1) ∧
    (∀ s u, 0 < getAliveBuffersOf s u →
      getAliveBuffersOf (applyEvent s (TEvent.destroy u true)) u + 1 =
        getAliveBuffersOf s u) ∧
    (∀ s u, applyEvent s (TEvent.construct u false) = s ∧
      applyEvent s (TEvent.destroy u false) = s) ∧
    desCount BufType.generic
        [TEvent.construct BufType.generic true, TEvent.construct BufType.ring true,
          TEvent.destroy BufType.generic true, TEvent.destroy BufType.ring true] ≤
      consCount BufType.generic
        [TEvent.construct BufType.generic true, TEvent.construct BufType.ring true,
          TEvent.destroy BufType.generic true, TEvent.destroy BufType.ring true] ∧
    getAliveBuffersOf
        (runEvents initialTracker
          [TEvent.construct BufType.generic true, TEvent.construct BufType.ring true,
            TEvent.destroy BufType.generic true, TEvent.destroy BufType.ring true])
        BufType.generic =
      consCount BufType.generic
          [TEvent.construct BufType.generic true, TEvent.construct BufType.ring true,
            TEvent.destroy BufType.generic true, TEvent.destroy BufType.ring true] -
        desCount BufType.generic
          [TEvent.construct BufType.generic true, TEvent.construct BufType.ring true,
            TEvent.destroy BufType.generic true, TEvent.destroy BufType.ring true] ∧
    ((∀ u, desCount u
          [TEvent.construct BufType.generic true, TEvent.construct BufType.ring true,
            TEvent.destroy BufType.generic true, TEvent.destroy BufType.ring true] =
        consCount u
          [TEvent.construct BufType.generic true, TEvent.construct BufType.ring true,
            TEvent.destroy BufType.generic true, TEvent.destroy BufType.ring true]) →
      getAliveBuffers
          (runEvents initialTracker
            [TEvent.construct BufType.generic true, TEvent.construct BufType.ring true,
              TEvent.destroy BufType.generic true, TEvent.destroy BufType.ring true]) = 0) :=
  C7_alive_counters
    [TEvent.construct BufType.generic true, TEvent.construct BufType.ring true,
      TEvent.destroy BufType.generic true, TEvent.destroy BufType.ring true]
    BufType.generic (by decide)

/-- The excess-buffers diagnostics threshold
`TrackedMetalBuffer::EXCESS_BUFFER_COUNT`. -/
def EXCESS_BUFFER_COUNT : Nat := 30000

/-- Embedding of the tracked-buffer constructor together with its
excess-buffers diagnostics: returns the updated counters and whether the
`debugUpdateStat` event was reported.  The threshold test reads the total
after the increment, and the report additionally requires a registered
platform diagnostics sink (`platform && platform->hasDebugUpdateStatFunc()`). -/
def constructTracked (s : TrackerState) (sinkRegistered : Bool) (t : BufType)
    (nonNull : Bool) : TrackerState × Bool :=
  if nonNull then
    let s1 := bumpAlive s t
    (s1, decide (EXCESS_BUFFER_COUNT ≤ getAliveBuffers s1) && sinkRegistered)
  else (s, false)

/-- C8: the claim as stated is false.  With no diagnostics sink
registered, a construction that brings the alive total to 30001 does not
report the excess-allocation event even though the running total exceeds
the 30000 threshold. -/
theorem C8_counterexample :
    EXCESS_BUFFER_COUNT ≤
      getAliveBuffers (bumpAlive ⟨30000, 0, 0⟩ BufType.generic) ∧
    (constructTracked ⟨30000, 0, 0⟩ false BufType.generic true).2 = false :=
  ⟨by decide, by decide⟩

/-- C8 (amended: provided a diagnostics sink is registered): a
construction with a non-null handle reports the excess-allocation event
exactly when the running total of alive buffers, including the new one,
reaches or exceeds 30000 — at every such construction, with no
de-duplication (the criterion depends only on the current counters); and
whether or not the event fires never changes the counters: the resulting
state is the plain counter update for every sink configuration. -/
theorem C8_excess_report (s : TrackerState) (t : BufType) (sink nonNull : Bool) :
    ((constructTracked s true t true).2 = true ↔
      EXCESS_BUFFER_COUNT ≤ getAliveBuffers (bumpAlive s t)) ∧
    (constructTracked s sink t nonNull).1 = applyEvent s (TEvent.construct t nonNull) := by
  constructor
  · simp [constructTracked]
  · cases nonNull <;> simp [constructTracked, applyEvent]

end MetalBufferModel
